import Mathlib

/-
Verification of the generic traversal engine and topology coordinate
algebra of the network_topology_optimization repository.

The Python sources are shallowly embedded as executable Lean functions:
iterators/generators become lists (preserving emission order), Python sets
and frozensets become either first-occurrence-deduplicated lists or
Finsets (where only membership and set-equality semantics matter),
exceptions become Except values, and Python ints become Int/Nat.
-/

set_option linter.unusedSectionVars false

namespace NetTopo

variable {α : Type} [DecidableEq α]

/-- Embedding of unique (src/core/itertools.py, lines 18-27): lazily yields
the elements of xs that are neither in the exclusion set nor already
yielded.  The generator's internal seen set together with the fixed
exclude argument is represented by one growing exclusion list. -/
def uniqueL (exclude : List α) : List α → List α
  | [] => []
  | x :: xs =>
    if x ∈ exclude then uniqueL exclude xs
    else x :: uniqueL (x :: exclude) xs

/-- Embedding of Python filter(guard, xs) with an Optional guard: a None
guard keeps every element (topology coordinates are nonempty tuples and
hence always truthy). -/
def pyFilter (guard : Option (α → Bool)) (xs : List α) : List α :=
  match guard with
  | none => xs
  | some g => xs.filter g

/-- The DGCoords contract of src/core/abc.py: a coordinate type with
children and parents enumerators.  adjacent is derived as the chain of
children and parents, exactly as DGCoords.adjacent does. -/
structure DGCoordsOps (α : Type) where
  childrenFn : α → List α
  parentsFn : α → List α

/-- DGCoords.adjacent (src/core/abc.py, lines 64-67): chain of children
and parents. -/
def adjacentFn (g : DGCoordsOps α) (c : α) : List α :=
  g.childrenFn c ++ g.parentsFn c

/-- Embedding of adjacent (src/core/core.py, lines 21-24). -/
def adjacent (g : DGCoordsOps α) (c : α) (guard : Option (α → Bool)) : List α :=
  pyFilter guard (adjacentFn g c)

/-- Embedding of children (src/core/core.py, lines 26-29). -/
def children (g : DGCoordsOps α) (c : α) (guard : Option (α → Bool)) : List α :=
  pyFilter guard (g.childrenFn c)

/-- Embedding of parents (src/core/core.py, lines 31-34). -/
def parents (g : DGCoordsOps α) (c : α) (guard : Option (α → Bool)) : List α :=
  pyFilter guard (g.parentsFn c)

/-- The round loop of explore (src/core/core.py, lines 54-66): at each
round the seen set is folded together with the previous frontier, the
guarded one-step image of the frontier is deduplicated against it, and
the surviving coordinates are emitted and become the new frontier. -/
def exploreRounds (step : α → List α) : ℕ → List α → List α → List α
  | 0, _, _ => []
  | d + 1, seen, queue =>
    let seen2 := seen ++ queue
    let emitted := uniqueL seen2 (queue.flatMap step)
    emitted ++ exploreRounds step d seen2 emitted

/-- Embedding of explore (src/core/core.py, lines 54-66).  Depth is a
Python int; the loop for d in range(depth) runs Int.toNat depth rounds,
so a negative depth runs zero rounds.  Both seen and queue start as the
singleton containing the start coordinate. -/
def explore (coords : α) (direction : α → Option (α → Bool) → List α)
    (depth : ℤ) (guard : Option (α → Bool)) : List α :=
  exploreRounds (fun c => direction c guard) depth.toNat [coords] [coords]

/-- Embedding of neighborhood (src/core/core.py, lines 36-40). -/
def neighborhood (g : DGCoordsOps α) (coords : α) (depth : ℤ)
    (guard : Option (α → Bool)) : List α :=
  explore coords (adjacent g) depth guard

/-- Embedding of descendants (src/core/core.py, lines 42-46). -/
def descendants (g : DGCoordsOps α) (coords : α) (depth : ℤ)
    (guard : Option (α → Bool)) : List α :=
  explore coords (children g) depth guard

/-- Embedding of ancestors (src/core/core.py, lines 48-52). -/
def ancestors (g : DGCoordsOps α) (coords : α) (depth : ℤ)
    (guard : Option (α → Bool)) : List α :=
  explore coords (parents g) depth guard

/-- Embedding of Python set(xs) where the code only relies on membership:
first-occurrence deduplication fixes a deterministic order. -/
def pySet (xs : List α) : List α := uniqueL [] xs

/-- The recursion of reach (src/core/core.py, lines 68-76) on the number
of remaining positive depth steps.  The body contains no yield outside
the recursive call, so nothing is ever emitted. -/
def reachAux (step : α → List α) : ℕ → List α → List α → List α
  | 0, _, _ => []
  | d + 1, queue, exclude =>
    let qs := pySet (queue.flatMap step)
    reachAux step d qs (exclude ++ qs)

/-- Embedding of reach (src/core/core.py, lines 68-76): the guard test
if depth > 0 means Int.toNat depth recursion steps. -/
def reach (queue : List α) (direction : α → Option (α → Bool) → List α)
    (depth : ℤ) (exclude : List α) (guard : Option (α → Bool)) : List α :=
  reachAux (fun c => direction c guard) depth.toNat queue exclude

/-- The recursion of area (src/core/core.py, lines 78-87). -/
def areaAux (step : α → List α) : ℕ → List α → List α → List α
  | 0, _, _ => []
  | d + 1, queue, exclude =>
    let qs := uniqueL exclude (queue.flatMap step)
    qs ++ areaAux step d qs (exclude ++ qs)

/-- Embedding of area (src/core/core.py, lines 78-87). -/
def area (queue : List α) (direction : α → Option (α → Bool) → List α)
    (depth : ℤ) (exclude : List α) (guard : Option (α → Bool)) : List α :=
  areaAux (fun c => direction c guard) depth.toNat queue exclude

lemma not_mem_exclude_of_mem_uniqueL {x : α} :
    ∀ {exclude xs : List α}, x ∈ uniqueL exclude xs → x ∉ exclude := by
  intro exclude xs
  induction xs generalizing exclude with
  | nil => simp [uniqueL]
  | cons y ys ih =>
    intro hx
    by_cases hy : y ∈ exclude
    · exact ih (by simpa [uniqueL, hy] using hx)
    · rcases (by simpa [uniqueL, hy] using hx : x = y ∨ x ∈ uniqueL (y :: exclude) ys) with h | h
      · simpa [h] using hy
      · exact fun hmem => (ih h) (List.mem_cons_of_mem _ hmem)

lemma nodup_uniqueL : ∀ (exclude xs : List α), (uniqueL exclude xs).Nodup := by
  intro exclude xs
  induction xs generalizing exclude with
  | nil => simp [uniqueL]
  | cons y ys ih =>
    by_cases hy : y ∈ exclude
    · simpa [uniqueL, hy] using ih exclude
    · have hstep : uniqueL exclude (y :: ys) = y :: uniqueL (y :: exclude) ys := by
        simp [uniqueL, hy]
      rw [hstep]
      refine List.nodup_cons.mpr ⟨fun hmem => ?_, ih (y :: exclude)⟩
      exact (not_mem_exclude_of_mem_uniqueL hmem) (List.mem_cons_self y exclude)

lemma exploreRounds_spec (step : α → List α) :
    ∀ (d : ℕ) (seen queue : List α),
      (exploreRounds step d seen queue).Nodup ∧
      ∀ x ∈ exploreRounds step d seen queue, x ∉ seen ∧ x ∉ queue := by
  intro d
  induction d with
  | zero => intro seen queue; simp [exploreRounds]
  | succ d ih =>
    intro seen queue
    have hemit : ∀ x ∈ uniqueL (seen ++ queue) (queue.flatMap step),
        x ∉ seen ∧ x ∉ queue := by
      intro x hx
      have := not_mem_exclude_of_mem_uniqueL hx
      simp only [List.mem_append] at this
      exact ⟨fun h => this (Or.inl h), fun h => this (Or.inr h)⟩
    obtain ⟨hrecN, hrecM⟩ :=
      ih (seen ++ queue) (uniqueL (seen ++ queue) (queue.flatMap step))
    constructor
    · refine List.Nodup.append (nodup_uniqueL _ _) hrecN ?_
      intro x hx hx2
      exact (hrecM x hx2).2 hx
    · intro x hx
      rcases List.mem_append.mp hx with h | h
      · exact hemit x h
      · have := (hrecM x h).1
        simp only [List.mem_append] at this
        exact ⟨fun hmem => this (Or.inl hmem), fun hmem => this (Or.inr hmem)⟩

/-- C3: the sequence produced by explore never contains the same
coordinate twice, and the start coordinate itself, which is seeded into
the seen set, is never emitted.  This holds for every direction function
and guard, hence in particular for neighborhood, descendants and
ancestors. -/
theorem explore_nodup_and_start_not_emitted
    (coords : α) (direction : α → Option (α → Bool) → List α)
    (depth : ℤ) (guard : Option (α → Bool)) :
    (explore coords direction depth guard).Nodup ∧
      coords ∉ explore coords direction depth guard := by
  obtain ⟨hN, hM⟩ :=
    exploreRounds_spec (fun c => direction c guard) depth.toNat [coords] [coords]
  exact ⟨hN, fun h => (hM coords h).2 (List.mem_singleton_self coords)⟩

/-- A tiny concrete instantiation of the DGCoords contract, used to
evaluate the traversal engine at concrete inputs: a chain DAG on the
naturals 0 through 3. -/
def chainOps : DGCoordsOps ℕ where
  childrenFn n := if n < 3 then [n + 1] else []
  parentsFn n := if n = 0 then [] else [n - 1]

/-- C1 counterexample: at depth 0 neighborhood, descendants and ancestors
return the empty sequence, not the singleton of the start coordinate, and
at depth 1 the start coordinate is not included in the result stream. -/
theorem depth_zero_not_singleton :
    neighborhood chainOps 1 0 none ≠ [1] ∧
      descendants chainOps 1 0 none ≠ [1] ∧
      ancestors chainOps 1 0 none ≠ [1] ∧
      (1 : ℕ) ∉ descendants chainOps 1 1 none := by
  decide

/-- C1 amended: a depth 0 call to neighborhood, descendants or ancestors
returns the empty sequence, and for every depth the start coordinate is
never part of the result stream (the start is seeded into the seen set
and deduplication drops it). -/
theorem depth_zero_empty_and_start_excluded
    (g : DGCoordsOps α) (coords : α) (guard : Option (α → Bool)) :
    neighborhood g coords 0 guard = [] ∧
      descendants g coords 0 guard = [] ∧
      ancestors g coords 0 guard = [] ∧
      ∀ depth : ℤ, coords ∉ neighborhood g coords depth guard ∧
        coords ∉ descendants g coords depth guard ∧
        coords ∉ ancestors g coords depth guard := by
  refine ⟨rfl, rfl, rfl, fun depth => ⟨?_, ?_, ?_⟩⟩
  · exact (explore_nodup_and_start_not_emitted coords (adjacent g) depth guard).2
  · exact (explore_nodup_and_start_not_emitted coords (children g) depth guard).2
  · exact (explore_nodup_and_start_not_emitted coords (parents g) depth guard).2

/-- C2 counterexample: passing depth -1 to explore, reach and area raises
no error and returns the empty sequence (the loop for d in range(depth)
and the test if depth > 0 simply run zero rounds). -/
theorem negative_depth_returns_empty :
    explore 1 (children chainOps) (-1) none = [] ∧
      reach [1] (children chainOps) (-1) [] none = [] ∧
      area [1] (children chainOps) (-1) [] none = [] := by
  exact ⟨rfl, rfl, rfl⟩

/-- C2 amended: for every negative depth, explore, reach and area are
total and return the empty sequence; no configuration error is raised
(the functions contain no depth validation at all). -/
theorem negative_depth_empty
    (coords : α) (queue exclude : List α)
    (direction : α → Option (α → Bool) → List α)
    (depth : ℤ) (guard : Option (α → Bool)) (h : depth < 0) :
    explore coords direction depth guard = [] ∧
      reach queue direction depth exclude guard = [] ∧
      area queue direction depth exclude guard = [] := by
  have hz : depth.toNat = 0 := Int.toNat_of_nonpos (le_of_lt h)
  refine ⟨?_, ?_, ?_⟩ <;>
    simp [explore, reach, area, hz, exploreRounds, reachAux, areaAux]

/-- C2 witness: the amended statement evaluated at depth -1 on the
concrete chain DAG. -/
theorem negative_depth_empty_witness :
    explore 1 (children chainOps) (-1) none = [] ∧
      reach [1] (children chainOps) (-1) [] none = [] ∧
      area [1] (children chainOps) (-1) [] none = [] :=
  negative_depth_empty 1 [1] [] (children chainOps) (-1) none (by decide)

section TopologyCoords

variable {E N : Type} [DecidableEq E] [DecidableEq N]

/-- A node split assignment (src/topology/coords.py NSplit in unordered
form): the node the split belongs to, paired with the frozenset of
frozenset cells partitioning its incident elements. -/
def NSplit (E N : Type) : Type := N × Finset (Finset E)

instance : DecidableEq (NSplit E N) := instDecidableEqProd

/-- A topology coordinate (TopoTuple in src/topology/coords.py): the
frozenset ECoord of switched elements and the NCoord dict of split
nodes.  Python dicts preserve insertion order, so NCoord is embedded as
its ordered association list. -/
structure TopoCoord (E N : Type) where
  e : Finset E
  n : List (N × NSplit E N)
deriving DecidableEq

/-- The keys of an embedded dict. -/
def nKeys (l : List (N × NSplit E N)) : List N := l.map (fun p => p.1)

/-- Python dict union d | other for a single binding: an existing key is
overwritten in place, a fresh key is appended at the end. -/
def dictUpdate (l : List (N × NSplit E N)) (k : N) (v : NSplit E N) :
    List (N × NSplit E N) :=
  if k ∈ nKeys l then l.map (fun p => if p.1 = k then (k, v) else p)
  else l ++ [(k, v)]

/-- Embedding of ECSimple.e_children (src/topology/coords.py, lines
106-118): one child per unswitched edge of the e-space, adding it to
ECoord and holding NCoord fixed. -/
def eChildrenSimple (es : List E) (c : TopoCoord E N) : List (TopoCoord E N) :=
  (es.filter (fun e => e ∉ c.e)).map (fun e => ⟨insert e c.e, c.n⟩)

/-- Embedding of NCSimple.n_children (src/topology/coords.py, lines
132-146): for each node of the n-space not yet split, and each split
assignment recorded for it, the coordinate adding that assignment keyed
by the node stored inside the split tuple. -/
def nChildrenSimple (ns : List (N × List (NSplit E N))) (c : TopoCoord E N) :
    List (TopoCoord E N) :=
  ((ns.filter (fun p => p.1 ∉ nKeys c.n)).flatMap (fun p => p.2)).map
    (fun s => ⟨c.e, dictUpdate c.n s.1 s⟩)

/-- Embedding of split_filter (src/topology/coords.py, lines 212-218):
remove the switched elements from every cell of a split; the cells form
a frozenset, so cells that become equal after filtering collapse. -/
def splitFilter (s : NSplit E N) (switches : Finset E) : NSplit E N :=
  (s.1, s.2.image (fun cell => cell \ switches))

/-- Embedding of n_filter (src/topology/coords.py, lines 220-223):
apply split_filter to every binding of an NCoord. -/
def nFilter (l : List (N × NSplit E N)) (switches : Finset E) :
    List (N × NSplit E N) :=
  l.map (fun p => (p.1, splitFilter p.2 switches))

/-- Embedding of ECCoupled.e_children (src/topology/coords.py, lines
148-163): as the simple variant, but the resulting NCoord has all split
cells filtered against the new switched-edge set. -/
def eChildrenCoupled (es : List E) (c : TopoCoord E N) : List (TopoCoord E N) :=
  (es.filter (fun e => e ∉ c.e)).map (fun e =>
    ⟨insert e c.e, nFilter c.n (insert e c.e)⟩)

/-- Embedding of NCCoupled.n_children (src/topology/coords.py, lines
182-196): each candidate split is filtered against the current ECoord
before being added. -/
def nChildrenCoupled (ns : List (N × List (NSplit E N))) (c : TopoCoord E N) :
    List (TopoCoord E N) :=
  ((ns.filter (fun p => p.1 ∉ nKeys c.n)).flatMap (fun p => p.2)).map
    (fun s =>
      let f := splitFilter s c.e
      ⟨c.e, dictUpdate c.n f.1 f⟩)

/-- Embedding of NP.n_parents (src/topology/coords.py, lines 198-210):
one parent per split node, dropping exactly that node's binding. -/
def nParents (c : TopoCoord E N) : List (TopoCoord E N) :=
  c.n.map (fun q => ⟨c.e, c.n.filter (fun p => p.1 ≠ q.1)⟩)

/-- Embedding of TopoCoords.children (src/topology/abc.py, lines 45-48)
for the simple mixin combination: edge children chained before node
children. -/
def childrenSimple (es : List E) (ns : List (N × List (NSplit E N)))
    (c : TopoCoord E N) : List (TopoCoord E N) :=
  eChildrenSimple es c ++ nChildrenSimple ns c

/-- Embedding of TopoCoords.children for the coupled mixin
combination. -/
def childrenCoupled (es : List E) (ns : List (N × List (NSplit E N)))
    (c : TopoCoord E N) : List (TopoCoord E N) :=
  eChildrenCoupled es c ++ nChildrenCoupled ns c

/-- An n-space is well keyed when every split it records for a node
carries that node as its own tag, as make_n_space produces via
node_splits. -/
def WellKeyed (ns : List (N × List (NSplit E N))) : Prop :=
  ∀ p ∈ ns, ∀ s ∈ p.2, s.1 = p.1

instance (ns : List (N × List (NSplit E N))) : Decidable (WellKeyed ns) := by
  unfold WellKeyed; infer_instance

lemma dictUpdate_fresh {k : N} {l : List (N × NSplit E N)} (v : NSplit E N)
    (hk : k ∉ nKeys l) : dictUpdate l k v = l ++ [(k, v)] := by
  simp [dictUpdate, hk]

lemma length_dictUpdate_fresh {k : N} {l : List (N × NSplit E N)}
    (v : NSplit E N) (hk : k ∉ nKeys l) :
    (dictUpdate l k v).length = l.length + 1 := by
  simp [dictUpdate_fresh v hk]

lemma fresh_of_mem_splits {ns : List (N × List (NSplit E N))}
    (hwf : WellKeyed ns) (c : TopoCoord E N) {s : NSplit E N}
    (hs : s ∈ (ns.filter (fun p => p.1 ∉ nKeys c.n)).flatMap (fun p => p.2)) :
    s.1 ∉ nKeys c.n := by
  simp only [List.mem_flatMap, List.mem_filter, decide_not, Bool.not_eq_eq_eq_not,
    Bool.not_true, decide_eq_false_iff_not] at hs
  obtain ⟨p, ⟨hp, hpk⟩, hsp⟩ := hs
  rw [hwf p hp s hsp]
  exact hpk

/-- C7: a node-dimension child move of NCSimple.n_children followed by
the matching node-dimension parent move of NP.n_parents reconstructs the
original coordinate: the parent list of the child contains the original
coordinate, and the edge coordinate is untouched throughout. -/
theorem n_children_n_parents_roundtrip
    (ns : List (N × List (NSplit E N))) (t c : TopoCoord E N)
    (hwf : WellKeyed ns) (hc : c ∈ nChildrenSimple ns t) :
    t ∈ nParents c ∧ c.e = t.e := by
  simp only [nChildrenSimple, List.mem_map] at hc
  obtain ⟨s, hs, hcs⟩ := hc
  have hfresh : s.1 ∉ nKeys t.n := fresh_of_mem_splits hwf t hs
  have hcn : c = ⟨t.e, t.n ++ [(s.1, s)]⟩ := by
    rw [← hcs, dictUpdate_fresh s hfresh]
  subst hcn
  refine ⟨?_, rfl⟩
  simp only [nParents, List.mem_map]
  refine ⟨(s.1, s), by simp, ?_⟩
  have hfilter : (t.n ++ [(s.1, s)]).filter (fun p => p.1 ≠ s.1) = t.n := by
    rw [List.filter_append]
    have h1 : t.n.filter (fun p => p.1 ≠ s.1) = t.n := by
      apply List.filter_eq_self.mpr
      intro a ha
      have hne : a.1 ≠ s.1 := fun hEq =>
        hfresh (hEq ▸ List.mem_map_of_mem (fun p => p.1) ha)
      simp [hne]
    have h2 : ([(s.1, s)] : List (N × NSplit E N)).filter
        (fun p => p.1 ≠ s.1) = [] := by simp
    rw [h1, h2, List.append_nil]
  simp only [hfilter]

/-- Concrete split assignment used to evaluate the round-trip theorem. -/
def wSplit : NSplit ℕ ℕ := (0, {({1, 2} : Finset ℕ), ({3, 4} : Finset ℕ)})

/-- Concrete one-node n-space used to evaluate the round-trip theorem. -/
def wNs : List (ℕ × List (NSplit ℕ ℕ)) := [(0, [wSplit])]

/-- The root coordinate of the concrete space. -/
def wRoot : TopoCoord ℕ ℕ := ⟨∅, []⟩

/-- The child of the root splitting node 0. -/
def wChild : TopoCoord ℕ ℕ := ⟨∅, [(0, wSplit)]⟩

/-- C7 witness: the round trip evaluated on the concrete one-node
space. -/
theorem n_children_n_parents_roundtrip_witness :
    wRoot ∈ nParents wChild ∧ wChild.e = wRoot.e :=
  n_children_n_parents_roundtrip wNs wRoot wChild (by decide) (by decide)

lemma nodup_splits_of_space {ns : List (N × List (NSplit E N))}
    (hkeys : (ns.map (fun p => p.1)).Nodup)
    (hsp : ∀ p ∈ ns, p.2.Nodup) (hwf : WellKeyed ns) (c : TopoCoord E N) :
    ((ns.filter (fun p => p.1 ∉ nKeys c.n)).flatMap (fun p => p.2)).Nodup := by
  apply List.nodup_flatMap.2
  constructor
  · intro p hp
    exact hsp p (List.mem_of_mem_filter hp)
  · have hfk : ((ns.filter (fun p => p.1 ∉ nKeys c.n)).map
        (fun p => p.1)).Nodup :=
      List.Nodup.sublist (List.Sublist.map _ (List.filter_sublist ns)) hkeys
    have hpw : (ns.filter (fun p => p.1 ∉ nKeys c.n)).Pairwise
        (fun p q => p.1 ≠ q.1) := List.pairwise_map.mp hfk
    refine List.Pairwise.imp_of_mem ?_ hpw
    intro p q hp hq hne
    intro s hs1 hs2
    have h1 : s.1 = p.1 := hwf p (List.mem_of_mem_filter hp) s hs1
    have h2 : s.1 = q.1 := hwf q (List.mem_of_mem_filter hq) s hs2
    exact hne (h1 ▸ h2)


lemma e_ne_of_mem_eChildrenSimple {es : List E} {c z : TopoCoord E N}
    (h : z ∈ eChildrenSimple es c) : z.e ≠ c.e := by
  simp only [eChildrenSimple, List.mem_map, List.mem_filter,
    decide_not, Bool.not_eq_eq_eq_not, Bool.not_true, decide_eq_false_iff_not] at h
  obtain ⟨e, ⟨_, he⟩, hz⟩ := h
  rw [← hz]
  intro hEq
  exact he (hEq ▸ Finset.mem_insert_self e c.e)

lemma e_ne_of_mem_eChildrenCoupled {es : List E} {c z : TopoCoord E N}
    (h : z ∈ eChildrenCoupled es c) : z.e ≠ c.e := by
  simp only [eChildrenCoupled, List.mem_map, List.mem_filter,
    decide_not, Bool.not_eq_eq_eq_not, Bool.not_true, decide_eq_false_iff_not] at h
  obtain ⟨e, ⟨_, he⟩, hz⟩ := h
  rw [← hz]
  intro hEq
  exact he (hEq ▸ Finset.mem_insert_self e c.e)

lemma nlen_of_mem_nChildrenSimple {ns : List (N × List (NSplit E N))}
    {c z : TopoCoord E N} (hwf : WellKeyed ns)
    (h : z ∈ nChildrenSimple ns c) :
    z.n.length = c.n.length + 1 ∧ z.e = c.e := by
  simp only [nChildrenSimple, List.mem_map] at h
  obtain ⟨s, hs, hz⟩ := h
  have hfresh := fresh_of_mem_splits hwf c hs
  rw [← hz]
  exact ⟨length_dictUpdate_fresh s hfresh, rfl⟩

lemma nlen_of_mem_nChildrenCoupled {ns : List (N × List (NSplit E N))}
    {c z : TopoCoord E N} (hwf : WellKeyed ns)
    (h : z ∈ nChildrenCoupled ns c) :
    z.n.length = c.n.length + 1 ∧ z.e = c.e := by
  simp only [nChildrenCoupled, List.mem_map] at h
  obtain ⟨s, hs, hz⟩ := h
  have hf0 := fresh_of_mem_splits hwf c hs
  have hfresh : (splitFilter s c.e).1 ∉ nKeys c.n := hf0
  rw [← hz]
  exact ⟨length_dictUpdate_fresh _ hfresh, rfl⟩

/-- C8 amended: for every coordinate over a well-formed space (distinct
eligible edges, distinct space keys, duplicate-free split sets tagged
with their own node), children(c) never contains c itself, in either the
simple or the coupled variant; and in the simple variant children(c)
contains no duplicates.  (The coupled variant can emit duplicates; see
the counterexample.) -/
theorem children_nodup_simple_no_self
    (es : List E) (ns : List (N × List (NSplit E N))) (c : TopoCoord E N)
    (hes : es.Nodup) (hkeys : (ns.map (fun p => p.1)).Nodup)
    (hsp : ∀ p ∈ ns, p.2.Nodup) (hwf : WellKeyed ns) :
    (childrenSimple es ns c).Nodup ∧ c ∉ childrenSimple es ns c ∧
      c ∉ childrenCoupled es ns c := by
  have hA : (eChildrenSimple es c).Nodup := by
    apply List.Nodup.map_on _ (hes.filter _)
    intro x hx y hy hxy
    have hx' : x ∉ c.e := by
      have := (List.mem_filter.mp hx).2
      simpa using this
    have hee : insert x c.e = insert y c.e := congrArg TopoCoord.e hxy
    have hxin : x ∈ insert y c.e := hee ▸ Finset.mem_insert_self x c.e
    rcases Finset.mem_insert.mp hxin with h | h
    · exact h
    · exact absurd h hx'
  have hB : (nChildrenSimple ns c).Nodup := by
    apply List.Nodup.map_on _ (nodup_splits_of_space hkeys hsp hwf c)
    intro x hx y hy hxy
    have hfx := fresh_of_mem_splits hwf c hx
    have hfy := fresh_of_mem_splits hwf c hy
    have hnn : dictUpdate c.n x.1 x = dictUpdate c.n y.1 y :=
      congrArg TopoCoord.n hxy
    rw [dictUpdate_fresh x hfx, dictUpdate_fresh y hfy] at hnn
    have hsing := List.append_cancel_left hnn
    exact ((Prod.mk.injEq _ _ _ _).mp (List.cons_eq_cons.mp hsing).1).2
  have hdisj : List.Disjoint (eChildrenSimple es c) (nChildrenSimple ns c) := by
    intro z hz1 hz2
    simp only [eChildrenSimple, List.mem_map] at hz1
    obtain ⟨e, _, hz⟩ := hz1
    have hlen := (nlen_of_mem_nChildrenSimple hwf hz2).1
    rw [← hz] at hlen
    simp at hlen
  refine ⟨List.Nodup.append hA hB hdisj, ?_, ?_⟩
  · intro hc
    rcases List.mem_append.mp hc with h | h
    · exact e_ne_of_mem_eChildrenSimple h rfl
    · have := (nlen_of_mem_nChildrenSimple hwf h).1
      omega
  · intro hc
    rcases List.mem_append.mp hc with h | h
    · exact e_ne_of_mem_eChildrenCoupled h rfl
    · have := (nlen_of_mem_nChildrenCoupled hwf h).1
      omega

/-- First split of the duplicate-producing space: node 0 split into cells
21,22 versus 23,24,25,26. -/
def dSplitA : NSplit ℕ ℕ :=
  (0, {({21, 22} : Finset ℕ), ({23, 24, 25, 26} : Finset ℕ)})

/-- Second split of the duplicate-producing space: node 0 split into
cells 21,22,26 versus 23,24,25. -/
def dSplitB : NSplit ℕ ℕ :=
  (0, {({21, 22, 26} : Finset ℕ), ({23, 24, 25} : Finset ℕ)})

/-- The n-space holding the two splits of node 0. -/
def dNs : List (ℕ × List (NSplit ℕ ℕ)) := [(0, [dSplitA, dSplitB])]

/-- The e-space of switchable edges 25 and 26. -/
def dEs : List ℕ := [25, 26]

/-- The coordinate with edges 25 and 26 switched and no node split. -/
def dC : TopoCoord ℕ ℕ := ⟨{25, 26}, []⟩

/-- C8 counterexample: over a well-formed space (distinct edges, distinct
keys, distinct well-tagged splits), the coupled children of the
coordinate switching edges 25 and 26 contain the same coordinate twice:
the two distinct splits of node 0 coincide once the switched edges are
filtered from their cells. -/
theorem childrenCoupled_has_duplicates :
    dEs.Nodup ∧ (dNs.map (fun p => p.1)).Nodup ∧
      [dSplitA, dSplitB].Nodup ∧ WellKeyed dNs ∧
      ¬ (childrenCoupled dEs dNs dC).Nodup := by
  decide

/-- C8 witness: the amended statement evaluated on the duplicate-free
concrete one-node space used for the round-trip claim. -/
theorem children_nodup_simple_no_self_witness :
    (childrenSimple [7] wNs wRoot).Nodup ∧
      wRoot ∉ childrenSimple [7] wNs wRoot ∧
      wRoot ∉ childrenCoupled [7] wNs wRoot :=
  children_nodup_simple_no_self [7] wNs wRoot (by decide) (by decide)
    (by decide) (by decide)

end TopologyCoords

section FrozenDict

variable {A B : Type}

/-- The TypeError raised by the mutation guard methods of
NamedFrozenDict (src/core/collections.py, lines 41-95): the Python
message interpolates the concrete class name and the rejected operation
into a fixed template; both parts are recorded structurally. -/
structure PyTypeError where
  clsName : String
  operation : String
deriving DecidableEq

/-- Embedding of NamedFrozenDict (src/core/collections.py, lines 26-95):
a hashable dict subclass carrying its class name (NCoord, NSpace, ...)
whose mutating methods are all overridden to raise TypeError.  The dict
payload is embedded as an ordered association list. -/
structure NamedFrozenDict (A B : Type) where
  clsName : String
  entries : List (A × B)

/-- NamedFrozenDict.__setitem__ (lines 41-46): unconditionally raises. -/
def NamedFrozenDict.setitem (d : NamedFrozenDict A B) (_k : A) (_v : B) :
    Except PyTypeError (NamedFrozenDict A B) :=
  .error ⟨d.clsName, "item assignment"⟩

/-- NamedFrozenDict.__delitem__ (lines 48-53): unconditionally raises. -/
def NamedFrozenDict.delitem (d : NamedFrozenDict A B) (_k : A) :
    Except PyTypeError (NamedFrozenDict A B) :=
  .error ⟨d.clsName, "item deletion"⟩

/-- NamedFrozenDict.__ior__ (lines 55-60): unconditionally raises. -/
def NamedFrozenDict.iorUpdate (d : NamedFrozenDict A B)
    (_o : List (A × B)) : Except PyTypeError (NamedFrozenDict A B) :=
  .error ⟨d.clsName, "dict union assignment"⟩

/-- NamedFrozenDict.clear (lines 62-67): unconditionally raises. -/
def NamedFrozenDict.clear (d : NamedFrozenDict A B) :
    Except PyTypeError (NamedFrozenDict A B) :=
  .error ⟨d.clsName, "dict clear method"⟩

/-- NamedFrozenDict.pop (lines 69-74): unconditionally raises. -/
def NamedFrozenDict.pop (d : NamedFrozenDict A B) (_k : A) :
    Except PyTypeError (NamedFrozenDict A B) :=
  .error ⟨d.clsName, "dict pop method"⟩

/-- NamedFrozenDict.popitem (lines 76-81): unconditionally raises. -/
def NamedFrozenDict.popitem (d : NamedFrozenDict A B) :
    Except PyTypeError (NamedFrozenDict A B) :=
  .error ⟨d.clsName, "dict popitem method"⟩

/-- NamedFrozenDict.update (lines 83-88): unconditionally raises. -/
def NamedFrozenDict.update (d : NamedFrozenDict A B)
    (_o : List (A × B)) : Except PyTypeError (NamedFrozenDict A B) :=
  .error ⟨d.clsName, "dict update method"⟩

/-- NamedFrozenDict.setdefault (lines 90-95): unconditionally raises. -/
def NamedFrozenDict.setdefault (d : NamedFrozenDict A B) (_k : A) (_v : B) :
    Except PyTypeError (NamedFrozenDict A B) :=
  .error ⟨d.clsName, "dict setdefault method"⟩

/-- One of the eight overridden mutating mapping operations turned d
into the post-state d2: the evolution relation of a NamedFrozenDict
value under its own method surface. -/
def AltersTo (d d2 : NamedFrozenDict A B) : Prop :=
  (∃ k v, d.setitem k v = .ok d2) ∨ (∃ k, d.delitem k = .ok d2) ∨
  (∃ o, d.iorUpdate o = .ok d2) ∨ d.clear = .ok d2 ∨
  (∃ k, d.pop k = .ok d2) ∨ d.popitem = .ok d2 ∨
  (∃ o, d.update o = .ok d2) ∨ (∃ k v, d.setdefault k v = .ok d2)

/-- C10: every mutating mapping operation on a NamedFrozenDict value
(item assignment, item deletion, in-place union, clear, pop, popitem,
update, setdefault) raises TypeError, and no sequence of these
operations can ever produce a post-state: the contents, hence the
n_coord of a coordinate, can never be altered after construction. -/
theorem frozen_dict_mutations_raise (d : NamedFrozenDict A B)
    (k : A) (v : B) (o : List (A × B)) :
    d.setitem k v = .error ⟨d.clsName, "item assignment"⟩ ∧
    d.delitem k = .error ⟨d.clsName, "item deletion"⟩ ∧
    d.iorUpdate o = .error ⟨d.clsName, "dict union assignment"⟩ ∧
    d.clear = .error ⟨d.clsName, "dict clear method"⟩ ∧
    d.pop k = .error ⟨d.clsName, "dict pop method"⟩ ∧
    d.popitem = .error ⟨d.clsName, "dict popitem method"⟩ ∧
    d.update o = .error ⟨d.clsName, "dict update method"⟩ ∧
    d.setdefault k v = .error ⟨d.clsName, "dict setdefault method"⟩ ∧
    ∀ d2 : NamedFrozenDict A B, ¬ AltersTo d d2 := by
  refine ⟨rfl, rfl, rfl, rfl, rfl, rfl, rfl, rfl, ?_⟩
  intro d2 h
  rcases h with ⟨_, _, h⟩ | ⟨_, h⟩ | ⟨_, h⟩ | h | ⟨_, h⟩ | h | ⟨_, h⟩ | ⟨_, _, h⟩ <;>
    simp [NamedFrozenDict.setitem, NamedFrozenDict.delitem,
      NamedFrozenDict.iorUpdate, NamedFrozenDict.clear, NamedFrozenDict.pop,
      NamedFrozenDict.popitem, NamedFrozenDict.update,
      NamedFrozenDict.setdefault] at h

end FrozenDict

section Graphs

/-- An adjacency list (src/topology/graphs.py AList): a Python dict from
node to a dict from neighboring node to the iterable of connecting
edges, embedded as an ordered association list with opaque identifiers
fixed to the naturals. -/
def AList : Type := List (ℕ × List (ℕ × List ℕ))

/-- Lookup a node's adjacency dict; the embedding returns the empty
mapping for a missing key (the Python code only indexes keys obtained
from the dict itself, where the two agree). -/
def alistAdj (a : AList) (n : ℕ) : List (ℕ × List ℕ) :=
  (((a.find? (fun p => p.1 = n)).map (fun p => p.2)).getD [])

/-- The dict keys of an adjacency list, in insertion order (n_list of
src/topology/graphs.py works on this set). -/
def nodesOf (a : AList) : List ℕ := a.map (fun p => p.1)

/-- Embedding of ne_connections (src/topology/graphs.py, lines 45-48):
the set of elements connected to node n, as a first-occurrence
deduplicated list. -/
def ne_connections (a : AList) (n : ℕ) : List ℕ :=
  pySet ((alistAdj a n).flatMap (fun p => p.2))

/-- Embedding of degree (src/topology/graphs.py, lines 55-58): the size
of the incident-element set. -/
def degree (a : AList) (n : ℕ) : ℕ := (ne_connections a n).length

/-- Embedding of en_connections (src/topology/graphs.py, lines 30-33):
the nodes connected to element e. -/
def en_connections (a : AList) (e : ℕ) : List ℕ :=
  (nodesOf a).filter (fun n => e ∈ ne_connections a n)

/-- Embedding of e_list (src/topology/graphs.py, lines 25-28): all
distinct elements of the adjacency list. -/
def e_list_py (a : AList) : List ℕ :=
  pySet (a.flatMap (fun p => p.2.flatMap (fun q => q.2)))

/-- The nodes whose degree lies below the minimum, in key order: the
below_min tuple computed by make_e_space, make_n_space and degree_guard
from the degree_list. -/
def below_min (a : AList) (min_deg : ℕ) : List ℕ :=
  (nodesOf a).filter (fun n => degree a n < min_deg)

/-- The exceptions raised by the space and guard constructors:
ValueError listing the nodes that violate the minimum degree
(make_e_space, make_n_space, degree_guard, node_splits), ValueError
naming only k (k_edge_guard), and the TypeError produced by the arity
mismatch of the splits call inside node_splits. -/
inductive PyError where
  | minDegree (nodes : List ℕ)
  | notKEdgeConnected (k : ℕ)
  | typeErrorArity
deriving DecidableEq

/-- The nodes identified by an error: the minimum-degree ValueError
interpolates the offending node tuple into its message; the other
errors name no node. -/
def errNodes : PyError → List ℕ
  | .minDegree ns => ns
  | _ => []

/-- Embedding of make_e_space (src/topology/spaces.py, lines 26-45):
fail with the below-minimum nodes, otherwise exclude the caller-supplied
exclusions and every edge incident to a node sitting exactly at the
minimum degree. -/
def make_e_space (e_list : List ℕ) (a : AList) (min_deg : ℕ)
    (exclude : List ℕ) : Except PyError (Finset ℕ) :=
  let bm := below_min a min_deg
  if bm ≠ [] then .error (.minDegree bm)
  else
    let at_min := (nodesOf a).flatMap
      (fun n => if degree a n = min_deg then ne_connections a n else [])
    .ok (e_list.filter (fun e => e ∉ exclude ∧ e ∉ at_min)).toFinset

/-- Embedding of splits (src/core/itertools.py, lines 29-46): all ordered
splits of xs into disjoint cells of size at least min_size, at most
max_splits cells; when xs is too small or only one cell may remain, the
whole of xs is yielded as a single final cell.  The set xs is embedded
as a duplicate-free list fixing an enumeration order. -/
def splits (min_size : ℕ) : ℕ → List ℕ → List (List (Finset ℕ))
  | 0, xs => [[xs.toFinset]]
  | 1, xs => [[xs.toFinset]]
  | ms + 2, xs =>
    if 2 * min_size ≤ xs.length then
      (List.range' min_size (xs.length - 2 * min_size + 1)).flatMap (fun n =>
        (xs.sublistsLen n).flatMap (fun c =>
          (splits min_size (ms + 1) (xs.filter (fun x => x ∉ c))).map
            (fun sub => c.toFinset :: sub)))
    else [[xs.toFinset]]

/-- Embedding of supplement (src/core/itertools.py, lines 60-63): all
ways of adding y to exactly one cell of the split. -/
def supplement (xss : List (Finset ℕ)) (y : ℕ) : List (List (Finset ℕ)) :=
  (List.range xss.length).map (fun n => xss.set n ((xss.getD n ∅) ∪ {y}))

/-- Embedding of distribute (src/core/itertools.py, lines 48-58): all
ways of distributing the elements of ys, one at a time, over the cells
of every split in xsss. -/
def distribute (ys : List ℕ) (xsss : List (List (Finset ℕ))) :
    List (List (Finset ℕ)) :=
  match ys with
  | [] => xsss
  | y :: ys => distribute ys (xsss.flatMap (fun xss => supplement xss y))

/-- Embedding of node_splits (src/topology/spaces.py, lines 66-92) as
written: after the degree check succeeds the body evaluates
splits(ec_flex, min_deg, max_splits, ec_fix), passing four arguments to
the three-parameter splits of src/core/itertools.py, so every call
raises TypeError before yielding anything. -/
def node_splits (node : ℕ) (_e_list : List ℕ) (a : AList)
    (min_deg _max_splits : ℕ) : Except PyError (List (NSplit ℕ ℕ)) :=
  if degree a node < min_deg then .error (.minDegree [node])
  else .error .typeErrorArity

/-- node_splits with the arity slip repaired: the intended call
splits(ec_flex, min_deg, max_splits) of the three-parameter splits
actually defined in src/core/itertools.py (the extra ec_fix argument is
dropped), with the rest of the body unchanged: the flexible incident
elements are partitioned, the candidate non-incident elements are
distributed over the cells, and in unordered mode the results are
deduplicated as frozensets of cells tagged with the node. -/
def node_splits_fixed (node : ℕ) (e_list : List ℕ) (a : AList)
    (min_deg max_splits : ℕ) : Except PyError (List (NSplit ℕ ℕ)) :=
  if degree a node < min_deg then .error (.minDegree [node])
  else
    let eL := pySet e_list
    let e_connect := ne_connections a node
    let ec_flex := eL.filter (fun e => e ∈ e_connect)
    let e_other := eL.filter (fun e => e ∉ e_connect)
    let base := splits min_deg max_splits ec_flex
    let full := distribute e_other base
    .ok (uniqueL [] (full.map (fun s => ((node, s.toFinset) : NSplit ℕ ℕ))))

/-- Embedding of make_n_space (src/topology/spaces.py, lines 47-64):
fail with the below-minimum nodes, otherwise collect the distinct
node_splits of every node of the n_list (where the first node_splits
call raises the arity TypeError). -/
def make_n_space (n_list : List (ℕ × List ℕ)) (a : AList)
    (min_deg max_splits : ℕ) :
    Except PyError (List (ℕ × Finset (NSplit ℕ ℕ))) :=
  let bm := below_min a min_deg
  if bm ≠ [] then .error (.minDegree bm)
  else n_list.mapM (fun p =>
    (node_splits p.1 p.2 a min_deg max_splits).map
      (fun l => (p.1, l.toFinset)))

instance {e s : Type} [DecidableEq e] [DecidableEq s] : DecidableEq (Except e s) :=
  fun a b =>
    match a, b with
    | .error x, .error y =>
      if h : x = y then isTrue (congrArg Except.error h)
      else isFalse (fun hh => h (Except.error.inj hh))
    | .ok x, .ok y =>
      if h : x = y then isTrue (congrArg Except.ok h)
      else isFalse (fun hh => h (Except.ok.inj hh))
    | .error _, .ok _ => isFalse (fun hh => Except.noConfusion hh)
    | .ok _, .error _ => isFalse (fun hh => Except.noConfusion hh)

lemma mem_uniqueL_iff {α : Type} [DecidableEq α] {x : α} :
    ∀ {exclude xs : List α}, x ∈ uniqueL exclude xs ↔ x ∈ xs ∧ x ∉ exclude := by
  intro exclude xs
  induction xs generalizing exclude with
  | nil => simp [uniqueL]
  | cons y ys ih =>
    by_cases hy : y ∈ exclude
    · rw [show uniqueL exclude (y :: ys) = uniqueL exclude ys by simp [uniqueL, hy]]
      rw [ih]
      constructor
      · exact fun ⟨h1, h2⟩ => ⟨List.mem_cons_of_mem y h1, h2⟩
      · rintro ⟨h1, h2⟩
        rcases List.mem_cons.mp h1 with h | h
        · exact absurd (h ▸ hy) h2
        · exact ⟨h, h2⟩
    · rw [show uniqueL exclude (y :: ys) = y :: uniqueL (y :: exclude) ys by
        simp [uniqueL, hy]]
      rw [List.mem_cons, ih]
      constructor
      · rintro (h | ⟨h1, h2⟩)
        · exact ⟨List.mem_cons.mpr (Or.inl h), h ▸ hy⟩
        · exact ⟨List.mem_cons_of_mem y h1,
            fun hm => h2 (List.mem_cons_of_mem y hm)⟩
      · rintro ⟨h, h2⟩
        by_cases hxy : x = y
        · exact Or.inl hxy
        · rcases List.mem_cons.mp h with hc | hc
          · exact absurd hc hxy
          · exact Or.inr ⟨hc, fun hm => by
              rcases List.mem_cons.mp hm with hd | hd
              · exact hxy hd
              · exact h2 hd⟩

lemma splits_small {min_size : ℕ} {xs : List ℕ}
    (h : xs.length < 2 * min_size) :
    ∀ ms, splits min_size ms xs = [[xs.toFinset]] := by
  intro ms
  match ms with
  | 0 => rfl
  | 1 => rfl
  | ms + 2 =>
    rw [splits, if_neg]
    omega

lemma distribute_singleton (c : Finset ℕ) :
    ∀ ys : List ℕ, distribute ys [[c]] = [[c ∪ ys.toFinset]] := by
  intro ys
  induction ys generalizing c with
  | nil => simp [distribute]
  | cons y ys ih =>
    have hsup : ([[c]] : List (List (Finset ℕ))).flatMap
        (fun xss => supplement xss y) = [[c ∪ {y}]] := by
      simp [supplement, List.range_succ]
    rw [distribute, hsup, ih (c ∪ {y})]
    have hu : (c ∪ {y}) ∪ ys.toFinset = c ∪ (y :: ys).toFinset := by
      rw [List.toFinset_cons, Finset.insert_eq, Finset.union_assoc]
    rw [hu]

lemma length_filter_mem_le {l conn : List ℕ} (hl : l.Nodup) (hconn : conn.Nodup) :
    (l.filter (fun e => e ∈ conn)).length ≤ conn.length := by
  have h1 : (l.filter (fun e => e ∈ conn)).Nodup := hl.filter _
  have h2 : (l.filter (fun e => e ∈ conn)).toFinset.card =
      (l.filter (fun e => e ∈ conn)).length := List.toFinset_card_of_nodup h1
  have h3 : conn.toFinset.card = conn.length := List.toFinset_card_of_nodup hconn
  have h4 : (l.filter (fun e => e ∈ conn)).toFinset ⊆ conn.toFinset := by
    intro x hx
    simp only [List.mem_toFinset, List.mem_filter, decide_eq_true_eq] at hx ⊢
    exact hx.2
  calc (l.filter (fun e => e ∈ conn)).length
      = (l.filter (fun e => e ∈ conn)).toFinset.card := h2.symm
    _ ≤ conn.toFinset.card := Finset.card_le_card h4
    _ = conn.length := h3

lemma nodup_pySet {α : Type} [DecidableEq α] (xs : List α) : (pySet xs).Nodup :=
  nodup_uniqueL [] xs

/-- C4 amended: for every node sitting exactly at the minimum degree
(with min_deg at least 1), node_splits as written raises the arity
TypeError instead of yielding anything, and under the intended
three-argument splits call it yields exactly one trivial single-cell
assignment holding all candidate elements, so NSpace would map the node
to a nonempty singleton rather than to the empty set. -/
theorem node_splits_at_min_deg (a : AList) (node : ℕ) (e_list : List ℕ)
    (min_deg max_splits : ℕ) (h1 : 1 ≤ min_deg)
    (h2 : degree a node = min_deg) :
    node_splits node e_list a min_deg max_splits = .error .typeErrorArity ∧
      node_splits_fixed node e_list a min_deg max_splits =
        .ok [(node, {e_list.toFinset})] := by
  have hnlt : ¬ degree a node < min_deg := by omega
  constructor
  · rw [node_splits, if_neg hnlt]
  · rw [node_splits_fixed, if_neg hnlt]
    have hflexlen : ((pySet e_list).filter
        (fun e => e ∈ ne_connections a node)).length < 2 * min_deg := by
      have := length_filter_mem_le (nodup_pySet e_list)
        (nodup_pySet ((alistAdj a node).flatMap (fun p => p.2)))
      have hdeg : (ne_connections a node).length = min_deg := h2
      rw [ne_connections] at *
      omega
    have hcell : ((pySet e_list).filter
          (fun e => e ∈ ne_connections a node)).toFinset ∪
        ((pySet e_list).filter
          (fun e => e ∉ ne_connections a node)).toFinset = e_list.toFinset := by
      ext e
      simp only [Finset.mem_union, List.mem_toFinset, List.mem_filter,
        decide_eq_true_eq, decide_not, Bool.not_eq_eq_eq_not, Bool.not_true,
        decide_eq_false_iff_not]
      constructor
      · rintro (⟨h, _⟩ | ⟨h, _⟩) <;> exact (mem_uniqueL_iff.mp h).1
      · intro h
        have hmem : e ∈ pySet e_list := mem_uniqueL_iff.mpr ⟨h, by simp⟩
        by_cases hc : e ∈ ne_connections a node
        · exact Or.inl ⟨hmem, hc⟩
        · exact Or.inr ⟨hmem, hc⟩
    simp only [splits_small hflexlen max_splits, distribute_singleton,
      List.map_cons, List.map_nil, List.toFinset_cons, List.toFinset_nil]
    rw [show ∀ z : NSplit ℕ ℕ, uniqueL [] [z] = [z] by intro z; simp [uniqueL]]
    rw [hcell]
    simp

/-- A triangle on nodes 0, 1, 2 with edges 10, 11, 12: every node,
including node 0, has degree exactly 2. -/
def degTwoA : AList :=
  [(0, [(1, [10]), (2, [11])]), (1, [(0, [10]), (2, [12])]),
   (2, [(0, [11]), (1, [12])])]

/-- C4 counterexample: for node 0 of degree 2 with min_deg 2, node_splits
does not yield the empty enumeration: as written it raises the arity
TypeError (so make_n_space raises as well), and with the arity slip
repaired it yields the single trivial one-cell assignment, so NSpace
maps the node to a nonempty singleton. -/
theorem node_splits_at_floor_not_empty :
    node_splits 0 [10, 11] degTwoA 2 2 = .error .typeErrorArity ∧
      node_splits 0 [10, 11] degTwoA 2 2 ≠ .ok [] ∧
      make_n_space [(0, [10, 11])] degTwoA 2 2 = .error .typeErrorArity ∧
      node_splits_fixed 0 [10, 11] degTwoA 2 2 =
        .ok [(0, {({10, 11} : Finset ℕ)})] ∧
      node_splits_fixed 0 [10, 11] degTwoA 2 2 ≠ .ok [] := by
  decide

/-- C4 witness: the amended statement applied to the concrete degree-2
node at min_deg 2. -/
theorem node_splits_at_min_deg_witness :
    node_splits 0 [10, 11] degTwoA 2 2 = .error .typeErrorArity ∧
      node_splits_fixed 0 [10, 11] degTwoA 2 2 =
        .ok [(0, {({10, 11} : Finset ℕ)})] :=
  node_splits_at_min_deg degTwoA 0 [10, 11] 2 2 (by decide) (by decide)

/-- A single node of degree 4 connected to 4 distinct neighbors through
edges 10 to 13. -/
def starA : AList :=
  [(0, [(1, [10]), (2, [11]), (3, [12]), (4, [13])]),
   (1, [(0, [10])]), (2, [(0, [11])]), (3, [(0, [12])]), (4, [(0, [13])])]

/-- C5: on the degree-4 star with min_deg 2 and max_splits 2, node_splits
as written raises the arity TypeError (spaces.py line 86 passes four
arguments to the three-parameter splits of core/itertools.py) instead of
enumerating anything; with the slip repaired, the unordered enumeration
yields exactly the 3 distinct 2-2 partitions of the 4 incident edges,
orderings deduplicated, as the claim demands. -/
theorem node_splits_star_arity_bug :
    node_splits 0 [10, 11, 12, 13] starA 2 2 = .error .typeErrorArity ∧
      node_splits_fixed 0 [10, 11, 12, 13] starA 2 2 =
        .ok [(0, {({10, 11} : Finset ℕ), {12, 13}}),
             (0, {({10, 12} : Finset ℕ), {11, 13}}),
             (0, {({10, 13} : Finset ℕ), {11, 12}})] := by
  decide

end Graphs

section Guards

/-- Embedding of check_degree (src/topology/guards.py, lines 49-68).
The source walks the switched edges one by one, decrementing a copied
degree map and failing as soon as an endpoint drops below the minimum;
since decrements only ever lower a node's count and every node is
checked when its last incident switched edge is processed, the loop
returns False exactly when some endpoint of a switched edge ends below
the minimum after all decrements, which is the order-independent form
used here.  The second loop checks that every cell of every split,
restricted to known unswitched elements exactly as sub_connections
does, still has at least min_deg elements. -/
def check_degree (coords : TopoCoord ℕ ℕ) (a : AList) (min_deg : ℕ) : Bool :=
  decide ((∀ e ∈ coords.e, ∀ n ∈ en_connections a e,
      min_deg ≤ degree a n -
        (coords.e.filter (fun e2 => n ∈ en_connections a e2)).card) ∧
    (∀ p ∈ coords.n, ∀ cell ∈ p.2.2,
      min_deg ≤ (cell.filter
        (fun e => e ∈ e_list_py a ∧ e ∉ coords.e)).card))

/-- Embedding of degree_guard (src/topology/guards.py, lines 30-47):
fail fast with the below-minimum nodes of the base graph, otherwise
return the per-coordinate check_degree closure. -/
def degree_guard (a : AList) (min_deg : ℕ) :
    Except PyError (TopoCoord ℕ ℕ → Bool) :=
  let bm := below_min a min_deg
  if bm ≠ [] then .error (.minDegree bm)
  else .ok (fun coords => check_degree coords a min_deg)

/-- A vertex of the (effective) NetworkX graph built by make_graph
(src/api/networkx.py, lines 21-67): an unsplit node keeps its own
identifier, a split node contributes one sub-node per cell.  The source
labels sub-nodes (n, i) by enumeration index; the embedding labels them
(n, cell) by the cell itself, an injective relabeling that preserves
connectivity. -/
abbrev GraphV : Type := ℕ ⊕ (ℕ × Finset ℕ)

/-- The cells of the split recorded for node n, or the empty set of
cells when n is not split (n_coord[n][1]). -/
def splitCellsOf (c : TopoCoord ℕ ℕ) (n : ℕ) : Finset (Finset ℕ) :=
  (((c.n.find? (fun p => p.1 = n)).map (fun p => p.2.2)).getD ∅)

/-- The graph vertex an edge endpoint n is attached to: the node itself
when unsplit, else the sub-node of the cell holding e (the union over
the cells containing e, which for partition cells is that unique cell,
matching the en_sub_list bookkeeping of make_graph). -/
def endpointV (c : TopoCoord ℕ ℕ) (n e : ℕ) : GraphV :=
  if n ∈ nKeys c.n then
    .inr (n, ((splitCellsOf c n).filter (fun cell => e ∈ cell)).sup id)
  else .inl n

/-- The vertex set built by make_graph: unsplit nodes as themselves,
split nodes replaced by one sub-node per cell. -/
def graphVertices (a : AList) (c : TopoCoord ℕ ℕ) : Finset GraphV :=
  (nodesOf a).foldr (fun n acc =>
    if n ∈ nKeys c.n then
      ((splitCellsOf c n).image (fun cell => (Sum.inr (n, cell) : GraphV))) ∪ acc
    else insert (Sum.inl n) acc) ∅

/-- The edge set built by make_graph: every unswitched element with
exactly two connected nodes becomes an edge between the endpoint
vertices (the source destructures en_list[e] into exactly two nodes and
would raise on anything else; such elements are dropped here).  NetworkX
Graph collapses parallel edges, which the Finset does as well. -/
def graphEdges (a : AList) (c : TopoCoord ℕ ℕ) : Finset (GraphV × GraphV) :=
  ((e_list_py a).filterMap (fun e =>
    if e ∈ c.e then none
    else match en_connections a e with
      | [t, f] => some (endpointV c t e, endpointV c f e)
      | _ => none)).toFinset

/-- The root coordinate: no switched edge, no split node (make_graph
with topo=None). -/
def rootCoord : TopoCoord ℕ ℕ := ⟨∅, []⟩

/-- One step of undirected reachability: add every vertex joined by an
edge to the current set. -/
def expandV (edges : Finset (GraphV × GraphV)) (s : Finset GraphV) :
    Finset GraphV :=
  s ∪ (edges.filter (fun p => p.1 ∈ s)).image (fun p => p.2) ∪
    (edges.filter (fun p => p.2 ∈ s)).image (fun p => p.1)

/-- Reachability closure with explicit fuel. -/
def reachV (edges : Finset (GraphV × GraphV)) : ℕ → Finset GraphV → Finset GraphV
  | 0, s => s
  | f + 1, s => reachV edges f (expandV edges s)

/-- Modelled from the spec: the external networkx connectivity test on
an undirected graph (every vertex reaches every vertex; the empty graph
is connected). -/
def connectedV (vs : Finset GraphV) (edges : Finset (GraphV × GraphV)) : Bool :=
  decide (∀ v ∈ vs, vs ⊆ reachV edges vs.card {v})

/-- Modelled from the spec: networkx.algorithms.connectivity's
is_k_edge_connected, an external library predicate, following the
glossary definition: removing any k-1 edges leaves the graph
connected. -/
def isKEdgeConnected (vs : Finset GraphV) (edges : Finset (GraphV × GraphV))
    (k : ℕ) : Bool :=
  decide (∀ s ∈ edges.powerset, s.card < k → connectedV vs (edges \ s) = true)

/-- Embedding of check_k_edge_connected (src/api/networkx.py, lines
86-94): rebuild the effective graph of the coordinate and test
k-edge-connectivity. -/
def check_k_edge_connected (coords : TopoCoord ℕ ℕ) (a : AList) (k : ℕ) : Bool :=
  isKEdgeConnected (graphVertices a coords) (graphEdges a coords) k

/-- Embedding of k_edge_guard (src/api/networkx.py, lines 69-84): fail
fast when the base graph is not k-edge-connected (the ValueError names
only k), otherwise return the per-coordinate closure. -/
def k_edge_guard (a : AList) (k : ℕ) :
    Except PyError (TopoCoord ℕ ℕ → Bool) :=
  if isKEdgeConnected (graphVertices a rootCoord) (graphEdges a rootCoord) k then
    .ok (fun coords => check_k_edge_connected coords a k)
  else .error (.notKEdgeConnected k)

/-- C6 amended: on a base graph with a node below the minimum degree,
make_e_space, make_n_space and degree_guard raise at construction time a
ValueError carrying exactly the offending nodes (the key-ordered list of
nodes whose degree is below the minimum) and never return a space or
guard; on a base graph that is not k-edge-connected, k_edge_guard raises
at construction time and never returns a guard, but its ValueError
names only k and identifies no offending node. -/
theorem constructors_fail_fast (a : AList) (e_list : List ℕ)
    (n_list : List (ℕ × List ℕ)) (exclude : List ℕ)
    (min_deg max_splits k : ℕ)
    (hbm : below_min a min_deg ≠ [])
    (hk : isKEdgeConnected (graphVertices a rootCoord)
      (graphEdges a rootCoord) k = false) :
    make_e_space e_list a min_deg exclude =
        .error (.minDegree (below_min a min_deg)) ∧
      make_n_space n_list a min_deg max_splits =
        .error (.minDegree (below_min a min_deg)) ∧
      degree_guard a min_deg = .error (.minDegree (below_min a min_deg)) ∧
      errNodes (PyError.minDegree (below_min a min_deg)) =
        below_min a min_deg ∧
      (∀ n, n ∈ errNodes (PyError.minDegree (below_min a min_deg)) ↔
        n ∈ nodesOf a ∧ degree a n < min_deg) ∧
      k_edge_guard a k = .error (.notKEdgeConnected k) ∧
      errNodes (PyError.notKEdgeConnected k) = [] := by
  refine ⟨?_, ?_, ?_, rfl, ?_, ?_, rfl⟩
  · rw [make_e_space, if_pos hbm]
  · rw [make_n_space, if_pos hbm]
  · rw [degree_guard, if_pos hbm]
  · intro n
    simp [errNodes, below_min, List.mem_filter]
  · rw [k_edge_guard, if_neg]
    rw [hk]
    exact Bool.false_ne_true

/-- The two-node path graph: one edge, both endpoints of degree 1; it
violates minimum degree 2 and is not 2-edge-connected. -/
def pathA : AList := [(1, [(2, [20])]), (2, [(1, [20])])]

/-- C6 witness: the amended statement evaluated on the two-node path
with min_deg = 2 and k = 2. -/
theorem constructors_fail_fast_witness :
    make_e_space [20] pathA 2 [] = .error (.minDegree [1, 2]) ∧
      make_n_space [(1, [20])] pathA 2 2 = .error (.minDegree [1, 2]) ∧
      degree_guard pathA 2 = .error (.minDegree [1, 2]) ∧
      errNodes (PyError.minDegree [1, 2]) = [1, 2] ∧
      (∀ n, n ∈ errNodes (PyError.minDegree [1, 2]) ↔
        n ∈ nodesOf pathA ∧ degree pathA n < 2) ∧
      k_edge_guard pathA 2 = .error (.notKEdgeConnected 2) ∧
      errNodes (PyError.notKEdgeConnected 2) = [] := by
  have hbm : below_min pathA 2 = [1, 2] := by decide
  have h := constructors_fail_fast pathA [20] [(1, [20])] [] 2 2 2
    (by decide) (by decide)
  rw [hbm] at h
  exact h

/-- Two triangles (nodes 1,2,3 and 4,5,6) joined by the single bridge
edge 50 between nodes 3 and 4: every node has degree at least 2, yet
the graph is not 2-edge-connected. -/
def bridgeA : AList :=
  [(1, [(2, [31]), (3, [32])]), (2, [(1, [31]), (3, [33])]),
   (3, [(1, [32]), (2, [33]), (4, [50])]),
   (4, [(3, [50]), (5, [41]), (6, [42])]),
   (5, [(4, [41]), (6, [43])]), (6, [(4, [42]), (5, [43])])]

/-- C6 counterexample: on the bridged double triangle, which satisfies
the minimum degree everywhere, k_edge_guard raises at construction time
an error that identifies no offending node (it names only k), so the
claim that all four constructors raise an error identifying the
offending nodes is false. -/
theorem k_edge_guard_error_names_no_nodes :
    below_min bridgeA 2 = [] ∧
      k_edge_guard bridgeA 2 = .error (.notKEdgeConnected 2) ∧
      errNodes (PyError.notKEdgeConnected 2) = [] := by
  have hconn : isKEdgeConnected (graphVertices bridgeA rootCoord)
      (graphEdges bridgeA rootCoord) 2 = false := by decide
  refine ⟨by decide, ?_, rfl⟩
  rw [k_edge_guard, hconn]
  simp

end Guards

section MethodResolution

/-- The classes involved in the equality semantics of topology
coordinates: the Python builtins object and tuple, abc.ABC,
typing.Generic, the coordinate contract hierarchy of src/core/abc.py
and src/topology/abc.py, the mixins of src/topology/coords.py, and two
distinct anonymous Coords classes as produced by two separate make_root
calls (src/topology/spaces.py, lines 94-101; the source spells the
mixin bases EC, EP, NC, names coords.py never defines, so make_root as
written raises ImportError on module import; the Simple mixins stand in
for the intended bindings, and the resolution below is unchanged by
picking the Coupled ones instead since all mixins subclass Topology
identically). -/
inductive PyClass where
  | objectC | abcC | genericC | tupleC
  | gcoords | dgcoords | dagcoords
  | topocoords | topodata | topology | topotuple
  | ecsimple | epsimple | ncsimple | npC
  | coordsA | coordsB
deriving DecidableEq

/-- The declared base-class lists, read off the class statements of the
source files. -/
def basesOf : PyClass → List PyClass
  | .objectC => []
  | .abcC => [.objectC]
  | .genericC => [.objectC]
  | .tupleC => [.objectC]
  | .gcoords => [.abcC]
  | .dgcoords => [.gcoords, .abcC]
  | .dagcoords => [.dgcoords, .abcC]
  | .topocoords => [.dagcoords, .abcC]
  | .topodata => [.topocoords, .genericC, .abcC]
  | .topology => [.topodata, .abcC]
  | .topotuple => [.tupleC, .topology]
  | .ecsimple => [.topology]
  | .epsimple => [.topology]
  | .ncsimple => [.topology]
  | .npC => [.topology]
  | .coordsA => [.topotuple, .ecsimple, .epsimple, .ncsimple, .npC]
  | .coordsB => [.topotuple, .ecsimple, .epsimple, .ncsimple, .npC]

/-- A head candidate is good when it appears in the tail of no
linearization being merged (the C3 condition). -/
def goodCand (ls : List (List PyClass)) (c : PyClass) : Bool :=
  ls.all (fun l => c ∉ l.tail)

/-- Remove a chosen class from every list being merged. -/
def removeC (c : PyClass) (ls : List (List PyClass)) : List (List PyClass) :=
  (ls.map (fun l => l.filter (fun x => x ≠ c))).filter (fun l => l ≠ [])

/-- The C3 merge of Python's method resolution order, with fuel: take
the first list head not occurring in any tail, prepend it, and
continue; fail when no candidate is good or fuel runs out. -/
def c3merge : ℕ → List (List PyClass) → Option (List PyClass)
  | 0, _ => none
  | fuel + 1, ls =>
    let ls2 := ls.filter (fun l => l ≠ [])
    if ls2.isEmpty then some []
    else
      match (ls2.filterMap List.head?).find? (goodCand ls2) with
      | none => none
      | some c => (c3merge fuel (removeC c ls2)).map (fun r => c :: r)

/-- Python's MRO: L(C) = C :: merge(L(B1), ..., L(Bn), [B1, ..., Bn]),
computed with fuel over the fixed class table. -/
def mroF : ℕ → PyClass → Option (List PyClass)
  | 0, _ => none
  | fuel + 1, c =>
    match (basesOf c).mapM (mroF fuel) with
    | none => none
    | some ms =>
      (c3merge 100 (ms ++ [basesOf c])).map (fun r => c :: r)

/-- The method resolution order of a class. -/
def mro (c : PyClass) : Option (List PyClass) := mroF 20 c

/-- The classes that define an attribute named like the equality dunder:
the builtins object and tuple, the abstract declaration in GCoords
(src/core/abc.py, lines 23-27) and the implementation in TopoData
(src/topology/abc.py, lines 105-111). -/
def definesEq : PyClass → Bool
  | .tupleC => true
  | .topodata => true
  | .gcoords => true
  | .objectC => true
  | _ => false

/-- Attribute lookup for the equality method: the first class along the
MRO that defines it. -/
def resolveEqMethod (c : PyClass) : Option PyClass :=
  (mro c).bind (List.find? definesEq)

/-- issubclass over the fixed table: x is a subclass of y when y occurs
in the MRO of x. -/
def isSubclassOf (x y : PyClass) : Bool := y ∈ (mro x).getD []

/-- A Python coordinate object: its concrete class together with its
e_coord and n_coord payloads. -/
structure PyCoordObj where
  cls : PyClass
  e : Finset ℕ
  n : List (ℕ × NSplit ℕ ℕ)

/-- The result of one rich-comparison call: a boolean, or the
NotImplemented sentinel. -/
inductive EqResult where
  | val (b : Bool)
  | notImpl
deriving DecidableEq

/-- Embedding of TopoData.__eq__ (src/topology/abc.py, lines 105-111):
compare e_coord and n_coord when the other operand is an instance of
type(self), otherwise return NotImplemented. -/
def topoDataEqFn (a b : PyCoordObj) : EqResult :=
  if isSubclassOf b.cls a.cls then .val (decide (a.e = b.e ∧ a.n = b.n))
  else .notImpl

/-- tuple.__eq__ of the Python runtime: elementwise comparison of the
(e_coord, n_coord) pair when the other operand is also a tuple,
otherwise NotImplemented. -/
def tupleEqFn (a b : PyCoordObj) : EqResult :=
  if isSubclassOf b.cls .tupleC then .val (decide (a.e = b.e ∧ a.n = b.n))
  else .notImpl

/-- Dispatch of the equality call on the left operand: the method found
first along its MRO runs.  object.__eq__ answers NotImplemented for
distinct objects, and the abstract GCoords declaration is never reached
for the classes modelled here. -/
def dispatchEq (a b : PyCoordObj) : EqResult :=
  match resolveEqMethod a.cls with
  | some .tupleC => tupleEqFn a b
  | some .topodata => topoDataEqFn a b
  | _ => .notImpl

/-- The == protocol: try the left operand's method, then the reflected
call, then fall back to identity, which is False for the distinct
instances compared here.  (Python prefers the reflected call when the
right type is a proper subclass of the left; for the sibling classes
compared below neither is, and both resolve to the same tuple method,
so the preference cannot change the outcome.) -/
def pyEq (a b : PyCoordObj) : Bool :=
  match dispatchEq a b with
  | .val v => v
  | .notImpl =>
    match dispatchEq b a with
    | .val v => v
    | .notImpl => false

/-- C9 counterexample: two coordinates built by two separate make_root
calls, hence instances of distinct anonymous classes, with identical
e_coord and n_coord components, do compare equal: the anonymous class
inherits tuple before TopoData in its MRO, so == runs tuple.__eq__,
which ignores the classes and compares the components. -/
theorem cross_class_coords_equal :
    pyEq ⟨.coordsA, ∅, []⟩ ⟨.coordsB, ∅, []⟩ = true ∧
      pyEq ⟨.coordsA, {1}, [(0, wSplit)]⟩ ⟨.coordsB, {1}, [(0, wSplit)]⟩ = true := by
  decide

/-- C9 amended: TopoData.__eq__ itself does return NotImplemented
whenever the other operand is not an instance of type(self); but the
MRO of the anonymous class produced by make_root places tuple before
TopoData (Coords, TopoTuple, tuple, the four mixins, Topology,
TopoData, ...), so attribute lookup resolves == to tuple.__eq__ and
coordinates from different make_root calls with equal components
compare equal: equality is decided by the components alone. -/
theorem topo_eq_resolution :
    mro .coordsA = some [.coordsA, .topotuple, .tupleC, .ecsimple, .epsimple,
      .ncsimple, .npC, .topology, .topodata, .topocoords, .dagcoords,
      .dgcoords, .gcoords, .genericC, .abcC, .objectC] ∧
      resolveEqMethod .coordsA = some .tupleC ∧
      resolveEqMethod .coordsB = some .tupleC ∧
      (∀ a b : PyCoordObj, isSubclassOf b.cls a.cls = false →
        topoDataEqFn a b = .notImpl) ∧
      (∀ (e e2 : Finset ℕ) (n n2 : List (ℕ × NSplit ℕ ℕ)),
        pyEq ⟨.coordsA, e, n⟩ ⟨.coordsB, e2, n2⟩ = decide (e = e2 ∧ n = n2)) := by
  have hres : resolveEqMethod PyClass.coordsA = some PyClass.tupleC := by decide
  have hsub : isSubclassOf PyClass.coordsB PyClass.tupleC = true := by decide
  refine ⟨by decide, hres, by decide, ?_, ?_⟩
  · intro a b h
    rw [topoDataEqFn, h]
    simp
  · intro e e2 n n2
    simp only [pyEq, dispatchEq, hres, tupleEqFn, hsub, if_true]

/-- C9 witness: the amended statement evaluated at the two concrete
sibling-class coordinates with empty components. -/
theorem topo_eq_resolution_witness :
    topoDataEqFn ⟨.coordsA, ∅, []⟩ ⟨.coordsB, ∅, []⟩ = .notImpl ∧
      pyEq ⟨.coordsA, ∅, []⟩ ⟨.coordsB, ∅, []⟩ = true := by
  refine ⟨topo_eq_resolution.2.2.2.1 ⟨.coordsA, ∅, []⟩ ⟨.coordsB, ∅, []⟩
    (by decide), ?_⟩
  rw [topo_eq_resolution.2.2.2.2 ∅ ∅ [] []]
  decide

end MethodResolution

end NetTopo
